/-
Verification of the fserv-poc schema-conversion utilities.

The development shallowly embeds the two Python modules
`xsd-to-json-schema.py` (XSDToJSONSchemaConverter) and
`apply-schema-to-swagger.py` (SwaggerSchemaApplier).  Python strings are
modelled as `List Char` (named `PyStr`); Python dicts as association
lists with Python's assignment semantics (update-in-place for an existing
key, append for a new one); optional / duck-typed attributes as `Option`.
-/
import Mathlib

set_option maxRecDepth 4000

/-- Python strings, modelled as their character lists. -/
abbrev PyStr := List Char

namespace FservPoc

/-! ## Small list helpers (head/last of appended lists) -/

theorem head?_append_or (l l' : List α) : (l ++ l').head? = l.head?.or l'.head? := by
  cases l <;> rfl

theorem getLast?_concat' (l : List α) (a : α) : (l ++ [a]).getLast? = some a := by
  induction l with
  | nil => rfl
  | cons b t ih =>
    rw [List.cons_append]
    cases h : t ++ [a] with
    | nil => exact absurd (List.append_eq_nil.mp h).2 (by simp)
    | cons c u => rw [List.getLast?_cons_cons, ← h, ih]

theorem getLast?_cons_or (a : α) (l : List α) :
    (a :: l).getLast? = l.getLast?.or (some a) := by
  induction l generalizing a with
  | nil => rfl
  | cons b t ih => rw [List.getLast?_cons_cons, ih b]; cases h : t.getLast? <;> rfl

theorem getLast?_append_or (l l' : List α) :
    (l ++ l').getLast? = l'.getLast?.or l.getLast? := by
  induction l with
  | nil => cases h : l'.getLast? <;> simp [Option.or, h]
  | cons a t ih =>
    rw [List.cons_append, getLast?_cons_or, ih, getLast?_cons_or, Option.or_assoc]

/-! ## PatternCanonicalizer: `_convert_xsd_pattern_to_json`

```python
pattern = xsd_pattern
if '|' in pattern and not (pattern.startswith('(') and pattern.endswith(')')):
    pattern = f"({pattern})"
if not pattern.startswith('^'):
    pattern = '^' + pattern
if not pattern.endswith('$'):
    pattern = pattern + '$'
return pattern
```
The three sequential reassignments are embedded as three named steps
applied in order. -/

/-- Step 1: wrap an alternation that is not already fully parenthesized. -/
def wrapAlt (p : PyStr) : PyStr :=
  if '|' ∈ p ∧ ¬(p.head? = some '(' ∧ p.getLast? = some ')') then
    '(' :: (p ++ [')'])
  else p

/-- Step 2: prepend `'^'` when absent. -/
def addCaret (p : PyStr) : PyStr :=
  if ¬(p.head? = some '^') then '^' :: p else p

/-- Step 3: append `'$'` when absent. -/
def addDollar (p : PyStr) : PyStr :=
  if ¬(p.getLast? = some '$') then p ++ ['$'] else p

def convert_xsd_pattern_to_json (xsdPattern : PyStr) : PyStr :=
  addDollar (addCaret (wrapAlt xsdPattern))

theorem canon_A_alt : convert_xsd_pattern_to_json "A|BC".toList = "^(A|BC)$".toList := by
  decide

theorem addCaret_head (q : PyStr) : (addCaret q).head? = some '^' := by
  unfold addCaret; by_cases h : q.head? = some '^' <;> simp [h]

theorem addCaret_of_head {q : PyStr} (h : q.head? = some '^') : addCaret q = q := by
  simp [addCaret, h]

theorem addDollar_last (q : PyStr) : (addDollar q).getLast? = some '$' := by
  unfold addDollar
  by_cases h : q.getLast? = some '$' <;> simp [h, getLast?_concat']

theorem addDollar_of_last {q : PyStr} (h : q.getLast? = some '$') : addDollar q = q := by
  simp [addDollar, h]

theorem addDollar_head {q : PyStr} (h : q.head? = some '^') :
    (addDollar q).head? = some '^' := by
  unfold addDollar
  by_cases h3 : q.getLast? = some '$'
  · simp [h3, h]
  · simp [h3, head?_append_or, h, Option.or]

theorem wrapAlt_of_not_mem {p : PyStr} (h : '|' ∉ p) : wrapAlt p = p := by
  simp [wrapAlt, h]

theorem not_mem_addCaret {q : PyStr} (h : '|' ∉ q) : '|' ∉ addCaret q := by
  unfold addCaret
  by_cases hc : q.head? = some '^' <;> simp [hc, h]

theorem not_mem_addDollar {q : PyStr} (h : '|' ∉ q) : '|' ∉ addDollar q := by
  unfold addDollar
  by_cases hc : q.getLast? = some '$' <;> simp [hc, h]

/-- After canonicalization the result starts with `'^'`. -/
theorem canon_head (p : PyStr) :
    (convert_xsd_pattern_to_json p).head? = some '^' :=
  addDollar_head (addCaret_head (wrapAlt p))

/-- After canonicalization the result ends with `'$'`. -/
theorem canon_last (p : PyStr) :
    (convert_xsd_pattern_to_json p).getLast? = some '$' :=
  addDollar_last (addCaret (wrapAlt p))

theorem not_mem_canon {p : PyStr} (h : '|' ∉ p) :
    '|' ∉ convert_xsd_pattern_to_json p := by
  rw [convert_xsd_pattern_to_json, wrapAlt_of_not_mem h]
  exact not_mem_addDollar (not_mem_addCaret h)

/-- **C3 (counterexample).**  The pattern canonicalizer is not idempotent: on
the input `a|b` the second application re-wraps and re-anchors the already
canonical `^(a|b)$`, producing `^(^(a|b)$)$`. -/
theorem canon_not_idempotent_counterexample :
    convert_xsd_pattern_to_json (convert_xsd_pattern_to_json "a|b".toList) ≠
      convert_xsd_pattern_to_json "a|b".toList ∧
    convert_xsd_pattern_to_json (convert_xsd_pattern_to_json "a|b".toList) =
      "^(^(a|b)$)$".toList := by
  decide

/-- **C3 (amended).**  The pattern canonicalizer is idempotent on every input
that does not contain the alternation character `'|'`:
`canonicalize (canonicalize p) = canonicalize p` whenever `'|' ∉ p`.  (For an
input containing `'|'` the second application wraps the already-anchored
result in another parenthesis group, so idempotence fails there.) -/
theorem canon_idempotent_of_no_alt (p : PyStr) (h : '|' ∉ p) :
    convert_xsd_pattern_to_json (convert_xsd_pattern_to_json p) =
      convert_xsd_pattern_to_json p := by
  conv_lhs => rw [convert_xsd_pattern_to_json,
    wrapAlt_of_not_mem (not_mem_canon h),
    addCaret_of_head (canon_head p),
    addDollar_of_last (canon_last p)]

/-- **C3 (amended, witness).** -/
theorem canon_idempotent_of_no_alt_witness :
    ('|' ∉ "a".toList) ∧
      convert_xsd_pattern_to_json (convert_xsd_pattern_to_json "a".toList) =
        convert_xsd_pattern_to_json "a".toList :=
  ⟨by decide, canon_idempotent_of_no_alt "a".toList (by decide)⟩

/-- The property claimed by C4: the output begins with exactly one `'^'`
(i.e. starts with `'^'` and the second character is not another `'^'`) and
ends with exactly one `'$'`. -/
def StartsEndsOnce (l : PyStr) : Prop :=
  l.head? = some '^' ∧ l.tail.head? ≠ some '^' ∧
    l.getLast? = some '$' ∧ l.dropLast.getLast? ≠ some '$'

/-- **C4 (counterexample).**  On the non-empty input `^^a` the canonicalizer
returns `^^a$`, which starts with two `'^'` characters, so the output does not
start with `'^'` exactly once. -/
theorem canon_anchor_once_counterexample :
    ("^^a".toList ≠ []) ∧
      convert_xsd_pattern_to_json "^^a".toList = "^^a$".toList ∧
      ¬ StartsEndsOnce (convert_xsd_pattern_to_json "^^a".toList) := by
  refine ⟨by decide, by decide, ?_⟩
  intro hso
  exact absurd hso.2.1 (by decide)

/-- **C4 (amended).**  For every non-empty input `p` the canonicalizer's
output starts with the character `'^'` and ends with the character `'$'`
(at least once each; a pre-anchored input such as `^^a` can leave the anchor
characters duplicated). -/
theorem canon_anchored (p : PyStr) (_h : p ≠ []) :
    (convert_xsd_pattern_to_json p).head? = some '^' ∧
      (convert_xsd_pattern_to_json p).getLast? = some '$' :=
  ⟨canon_head p, canon_last p⟩

/-- **C4 (amended, witness).** -/
theorem canon_anchored_witness :
    ("a".toList ≠ []) ∧
      (convert_xsd_pattern_to_json "a".toList).head? = some '^' ∧
      (convert_xsd_pattern_to_json "a".toList).getLast? = some '$' :=
  ⟨by decide, canon_anchored "a".toList (by decide)⟩

/-! ## TypeNameNormalizer: `_convert_type_name`

```python
if not xsd_name:
    return "UnknownType"
if ':' in xsd_name:
    xsd_name = xsd_name.split(':')[-1]
conversions = { 'string2-20': 'String2To20', ... }
if xsd_name.lower() in conversions:
    return conversions[xsd_name.lower()]
words = re.split(r'[_\-\s]+', xsd_name)
return ''.join(word.capitalize() for word in words if word)
```
-/

/-- ASCII lower-casing of one character (`str.lower` on the ASCII inputs the
converter deals with). -/
def asciiLower (c : Char) : Char :=
  if 'A' ≤ c ∧ c ≤ 'Z' then Char.ofNat (c.toNat + 32) else c

/-- ASCII upper-casing of one character. -/
def asciiUpper (c : Char) : Char :=
  if 'a' ≤ c ∧ c ≤ 'z' then Char.ofNat (c.toNat - 32) else c

/-- Python `str.capitalize`: first character upper-cased, the rest
lower-cased. -/
def pyCapitalize : PyStr → PyStr
  | [] => []
  | c :: cs => asciiUpper c :: cs.map asciiLower

/-- The separator class `[_\-\s]` of the PascalCase fallback
(`\s` = space, tab, newline, carriage return, vertical tab, form feed). -/
def isSepChar (c : Char) : Bool :=
  c = '_' || c = '-' || c = ' ' || c = '\t' || c = '\n' ||
    c = '\r' || c = '\u000b' || c = '\u000c'

/-- Split at every separator character, keeping empty words.  `re.split`
with the `+`-quantified class collapses runs instead, but the caller drops
empty words (`if word`), so after that filter the two agree. -/
def splitSeps : PyStr → List PyStr
  | [] => [[]]
  | c :: cs =>
    let r := splitSeps cs
    if isSepChar c then [] :: r
    else
      match r with
      | [] => [[c]]
      | w :: ws => (c :: w) :: ws

/-- `xsd_name.split(':')[-1]`: the characters after the last colon. -/
def afterLastColon (l : PyStr) : PyStr :=
  l.foldl (fun acc c => if c = ':' then [] else acc ++ [c]) []

/-- The static irregular-conversion table of `_convert_type_name`. -/
def conversions : List (PyStr × PyStr) :=
  [("string2-20".toList, "String2To20".toList),
   ("string3-5".toList, "String3To5".toList),
   ("string5-7".toList, "String5To7".toList),
   ("string2-80".toList, "String2To80".toList),
   ("alpha3-4".toList, "Alpha3To4".toList),
   ("alphanum1-5".toList, "AlphaNum1To5".toList),
   ("amt9v2n".toList, "Amt9V2N".toList),
   ("percent2v3".toList, "Percent2V3".toList),
   ("percent3v2".toList, "Percent3V2".toList),
   ("value14".toList, "Value14".toList),
   ("date8".toList, "Date8".toList),
   ("time6".toList, "Time6".toList),
   ("integer3".toList, "Integer3".toList),
   ("integer5".toList, "Integer5".toList),
   ("length4".toList, "Length4".toList),
   ("sintype".toList, "SINType".toList),
   ("yes1".toList, "Yes1".toList),
   ("yesno1".toList, "YesNo1".toList)]

def convert_type_name (xsdName : PyStr) : PyStr :=
  if xsdName = [] then "UnknownType".toList
  else
    let name := if ':' ∈ xsdName then afterLastColon xsdName else xsdName
    match conversions.lookup (name.map asciiLower) with
    | some v => v
    | none => (((splitSeps name).filter (· ≠ [])).map pyCapitalize).flatten

theorem splitSeps_of_no_sep {l : PyStr} (h : ∀ c ∈ l, isSepChar c = false) :
    splitSeps l = [l] := by
  induction l with
  | nil => rfl
  | cons c cs ih =>
    have hc : isSepChar c = false := h c (List.mem_cons_self c cs)
    have ihcs : splitSeps cs = [cs] := ih fun x hx => h x (List.mem_cons_of_mem c hx)
    simp [splitSeps, hc, ihcs]

/-- Sanity check for the table: `string3-5` normalizes through the
irregular-conversion table. -/
theorem convert_type_name_string3_5 :
    convert_type_name "string3-5".toList = "String3To5".toList := by decide

/-- **C9.**  For every non-empty input name containing no namespace
delimiter `':'` and no separator character (hyphen, underscore, whitespace),
whose lower-cased form is not a key of the static irregular-conversion table,
`_convert_type_name` returns the input with its first character upper-cased
and every remaining character lower-cased (Python `str.capitalize`) — so the
interior capitalization of an already-mixed-case name is not preserved. -/
theorem convert_type_name_plain (name : PyStr)
    (h0 : name ≠ []) (h1 : ':' ∉ name)
    (h2 : ∀ c ∈ name, isSepChar c = false)
    (h3 : conversions.lookup (name.map asciiLower) = none) :
    convert_type_name name = pyCapitalize name := by
  rw [convert_type_name, if_neg h0]
  simp only [h1, if_false, reduceIte, h3]
  rw [splitSeps_of_no_sep h2]
  simp [List.filter, h0]

/-- **C9 (witness).**  On `OrdSet` the normalizer returns `Ordset`,
flattening the interior capital. -/
theorem convert_type_name_plain_witness :
    ("OrdSet".toList ≠ [] ∧ ':' ∉ "OrdSet".toList ∧
        (∀ c ∈ "OrdSet".toList, isSepChar c = false) ∧
        conversions.lookup ("OrdSet".toList.map asciiLower) = none) ∧
      convert_type_name "OrdSet".toList = pyCapitalize "OrdSet".toList ∧
      pyCapitalize "OrdSet".toList = "Ordset".toList :=
  ⟨⟨by decide, by decide, by decide, by decide⟩,
    convert_type_name_plain "OrdSet".toList (by decide) (by decide)
      (by decide) (by decide), by decide⟩

/-! ## FacetExtractor: `_convert_simple_type` / `_apply_facets`

`_convert_simple_type` starts from `{"type": "string"}` and runs six
discovery strategies in order, each of which *assigns* into the record:

1. direct `type_obj.facets` (via `_apply_facets`);
2. `type_obj.restrictions`, each restriction's `facets` (via `_apply_facets`);
3. `type_obj.constraints` key/value pairs (guarded by `hasattr base_type`);
4. `type_obj.validators`, branching on the validator class name
   (`XsdPatternFacets`/`XsdMinLengthFacet`/`XsdMaxLengthFacet`/`XsdLengthFacet`);
5. `type_obj.patterns` nodes, taking the first node whose value can be
   recovered (attribute access chain, then a regex scan of `str(pat)`);
6. `type_obj.validators` again, for the singular `XsdPatternFacet` class.

Finally `python_type` / `base_type.local_name` may rewrite the `type` field.

Duck-typed attributes are modelled with `Option` (`none` = attribute
absent); where the code also tests Python truthiness, the model carries the
value and tests emptiness exactly where the code does. -/

/-- A facets mapping as consumed by `_apply_facets` (`none` = key absent). -/
structure Facets where
  minLength : Option Int
  maxLength : Option Int
  length : Option Int
  pattern : Option PyStr
  enumeration : Option (List PyStr)
deriving DecidableEq

/-- The constraint record built by `_convert_simple_type`
(`json_type`); `none` = key never assigned. -/
structure SimpleJsonType where
  type : PyStr
  minLength : Option Int
  maxLength : Option Int
  pattern : Option PyStr
  enum : Option (List PyStr)
deriving DecidableEq

/-- `json_type = {"type": "string"}` -/
def initJsonType : SimpleJsonType :=
  { type := "string".toList, minLength := none, maxLength := none,
    pattern := none, enum := none }

/-- `_apply_facets`: conditional assignments in source order
(minLength, maxLength, length — which sets both bounds —, pattern,
enumeration). -/
def apply_facets (j : SimpleJsonType) (f : Facets) : SimpleJsonType :=
  let j := match f.minLength with
    | some v => { j with minLength := some v }
    | none => j
  let j := match f.maxLength with
    | some v => { j with maxLength := some v }
    | none => j
  let j := match f.length with
    | some v => { j with minLength := some v, maxLength := some v }
    | none => j
  let j := match f.pattern with
    | some p => { j with pattern := some (convert_xsd_pattern_to_json p) }
    | none => j
  match f.enumeration with
    | some e => { j with enum := some e }
    | none => j

/-- One `constraint_name, constraint_value` pair of strategy 3
(`other` covers unrecognized constraint names, which the loop ignores). -/
inductive ConstraintEntry where
  | enumeration (vs : List PyStr)
  | pattern (p : PyStr)
  | minLength (n : Int)
  | maxLength (n : Int)
  | length (n : Int)
  | other
deriving DecidableEq

/-- Strategy 3 loop body. -/
def applyConstraint (j : SimpleJsonType) (c : ConstraintEntry) : SimpleJsonType :=
  match c with
  | .enumeration vs => { j with enum := some vs }
  | .pattern p => { j with pattern := some (convert_xsd_pattern_to_json p) }
  | .minLength n => { j with minLength := some n }
  | .maxLength n => { j with maxLength := some n }
  | .length n => { j with minLength := some n, maxLength := some n }
  | .other => j

/-- A validator attribute value, keeping both the `str()` and `int()`
renderings the code applies to it. -/
structure FacetValue where
  asStr : PyStr
  asInt : Int
deriving DecidableEq

/-- `type(validator).__name__` discriminator. -/
inductive ValidatorKind where
  | xsdPatternFacets
  | xsdPatternFacet
  | xsdMinLengthFacet
  | xsdMaxLengthFacet
  | xsdLengthFacet
  | otherKind
deriving DecidableEq

/-- One entry of `type_obj.validators`; each `Option` field is a
`hasattr`-guarded attribute. -/
structure Validator where
  kind : ValidatorKind
  enumeration : Option (List PyStr)
  patterns : Option (List PyStr)
  regexps : Option (List PyStr)
  value : Option FacetValue
  pattern : Option PyStr
deriving DecidableEq

/-- Strategy 4 loop body: the truthiness-guarded enumeration assignment,
then the `XsdPatternFacets`/length-facet branch chain.  Inside the
`patterns`/`regexps` loops the code `break`s after the first entry. -/
def validatorStep (j : SimpleJsonType) (v : Validator) : SimpleJsonType :=
  let j := match v.enumeration with
    | some (x :: xs) => { j with enum := some (x :: xs) }
    | _ => j
  if v.kind = .xsdPatternFacets then
    match v.patterns with
    | some ps =>
      match ps with
      | p :: _ => { j with pattern := some (convert_xsd_pattern_to_json p) }
      | [] => j
    | none =>
      match v.regexps with
      | some rs =>
        match rs with
        | r :: _ => { j with pattern := some (convert_xsd_pattern_to_json r) }
        | [] => j
      | none =>
        match v.value with
        | some fv => { j with pattern := some (convert_xsd_pattern_to_json fv.asStr) }
        | none => j
  else if v.kind = .xsdMinLengthFacet then
    match v.value with
    | some fv => { j with minLength := some fv.asInt }
    | none => j
  else if v.kind = .xsdMaxLengthFacet then
    match v.value with
    | some fv => { j with maxLength := some fv.asInt }
    | none => j
  else if v.kind = .xsdLengthFacet then
    match v.value with
    | some fv => { j with minLength := some fv.asInt, maxLength := some fv.asInt }
    | none => j
  else j

/-- One entry of `type_obj.patterns` in strategy 5.  Each field is one of
the four value-recovery routes (`pat.value`, `pat.get('value')`,
`pat.attrib['value']`, regex search over `str(pat)`); `none` = route
unavailable.  A Python `None` attribute value is modelled as the empty
string (both fail the subsequent `if pattern_value:` truthiness test). -/
structure PatNode where
  value : Option PyStr
  getValue : Option PyStr
  attribValue : Option PyStr
  strMatch : Option PyStr
deriving DecidableEq

/-- The `hasattr` chain recovering `pattern_value` from one node. -/
def extractPatternValue (p : PatNode) : Option PyStr :=
  match p.value with
  | some v => some v
  | none =>
    match p.getValue with
    | some v => some v
    | none =>
      match p.attribValue with
      | some v => some v
      | none => p.strMatch

/-- Strategy 5 loop: first node with a truthy recovered value, then break. -/
def firstPatternNodeValue : List PatNode → Option PyStr
  | [] => none
  | p :: ps =>
    match extractPatternValue p with
    | some (c :: cs) => some (c :: cs)
    | _ => firstPatternNodeValue ps

/-- Strategy 6 loop body: the singular `XsdPatternFacet` class, trying
`validator.value` then `validator.pattern`. -/
def patternFacetStep (j : SimpleJsonType) (v : Validator) : SimpleJsonType :=
  if v.kind = .xsdPatternFacet then
    match v.value with
    | some fv => { j with pattern := some (convert_xsd_pattern_to_json fv.asStr) }
    | none =>
      match v.pattern with
      | some p => { j with pattern := some (convert_xsd_pattern_to_json p) }
      | none => j
  else j

/-- `python_type` primitive families distinguished by the kind inference. -/
inductive PyPrimitive where
  | pyInt
  | pyFloat
  | pyBool
  | pyOther
deriving DecidableEq

/-- One XSD simple-type object, restricted to the attributes
`_convert_simple_type` reads.  `restrictions`/`patterns` use `[]` for
"absent or empty" (both make the guarded loop a no-op). -/
structure TypeObj where
  facets : Option Facets
  restrictions : List (Option Facets)
  hasBaseTypeAttr : Bool
  constraints : Option (List ConstraintEntry)
  validators : Option (List Validator)
  patterns : List PatNode
  pythonType : Option PyPrimitive
  baseTypeLocalName : Option PyStr
deriving DecidableEq

/-- Method 1: `if hasattr(type_obj, 'facets') and type_obj.facets:` -/
def strategyDirectFacets (t : TypeObj) (j : SimpleJsonType) : SimpleJsonType :=
  match t.facets with
  | some f => apply_facets j f
  | none => j

/-- Method 2: the `restrictions` traversal; each restriction's
`facets`-bearing entry goes through `_apply_facets`. -/
def strategyRestrictions (t : TypeObj) (j : SimpleJsonType) : SimpleJsonType :=
  t.restrictions.foldl
    (fun j rf =>
      match rf with
      | some f => apply_facets j f
      | none => j) j

/-- Method 3: `if hasattr(type_obj, 'base_type') and hasattr(type_obj,
'constraints'):` then the key/value loop. -/
def strategyConstraints (t : TypeObj) (j : SimpleJsonType) : SimpleJsonType :=
  if t.hasBaseTypeAttr then
    match t.constraints with
    | some cs => cs.foldl applyConstraint j
    | none => j
  else j

/-- Method 4: the validator traversal. -/
def strategyValidators (t : TypeObj) (j : SimpleJsonType) : SimpleJsonType :=
  match t.validators with
  | some vs => vs.foldl validatorStep j
  | none => j

/-- Method 5: the raw pattern-node scan. -/
def strategyPatternNodes (t : TypeObj) (j : SimpleJsonType) : SimpleJsonType :=
  match firstPatternNodeValue t.patterns with
  | some v => { j with pattern := some (convert_xsd_pattern_to_json v) }
  | none => j

/-- Method 6: the second validator traversal for `XsdPatternFacet`. -/
def strategyPatternFacet (t : TypeObj) (j : SimpleJsonType) : SimpleJsonType :=
  match t.validators with
  | some vs => vs.foldl patternFacetStep j
  | none => j

/-- The trailing base-type handling rewriting `json_type['type']`.  The
`elif` chain under `hasattr(python_type)` falls through without consulting
`base_type` when `python_type` is none of int/float/bool. -/
def inferKind (t : TypeObj) (j : SimpleJsonType) : SimpleJsonType :=
  match t.pythonType with
  | some .pyInt => { j with type := "integer".toList }
  | some .pyFloat => { j with type := "number".toList }
  | some .pyBool => { j with type := "boolean".toList }
  | some .pyOther => j
  | none =>
    match t.baseTypeLocalName with
    | some nm =>
      if nm = "int".toList ∨ nm = "integer".toList ∨ nm = "long".toList ∨
          nm = "short".toList then
        { j with type := "integer".toList }
      else if nm = "float".toList ∨ nm = "double".toList ∨ nm = "decimal".toList then
        { j with type := "number".toList }
      else if nm = "boolean".toList then
        { j with type := "boolean".toList }
      else j
    | none => j

/-- `_convert_simple_type`: the six strategies in order, then kind
inference. -/
def convert_simple_type (t : TypeObj) : SimpleJsonType :=
  inferKind t
    (strategyPatternFacet t
      (strategyPatternNodes t
        (strategyValidators t
          (strategyConstraints t
            (strategyRestrictions t
              (strategyDirectFacets t initJsonType))))))

/-! ### Per-strategy discovered values

For the merge-order analysis, each strategy's *discovered* value per
constraint field is characterized independently of the sequential fold:
within one strategy the code's own loop structure decides which of several
candidates survives (`_apply_facets`: `length` overrides the explicit
bounds; strategies 2–4 and 6: the last assigning entry of the traversal;
strategy 5: the first truthy node). -/

def facetsPat (f : Facets) : Option PyStr := f.pattern.map convert_xsd_pattern_to_json

def facetsEnum (f : Facets) : Option (List PyStr) := f.enumeration

def facetsMin (f : Facets) : Option Int := f.length.or f.minLength

def facetsMax (f : Facets) : Option Int := f.length.or f.maxLength

def constraintPat : ConstraintEntry → Option PyStr
  | .pattern p => some (convert_xsd_pattern_to_json p)
  | _ => none

def constraintEnum : ConstraintEntry → Option (List PyStr)
  | .enumeration vs => some vs
  | _ => none

def constraintMin : ConstraintEntry → Option Int
  | .minLength n => some n
  | .length n => some n
  | _ => none

def constraintMax : ConstraintEntry → Option Int
  | .maxLength n => some n
  | .length n => some n
  | _ => none

def validatorPat (v : Validator) : Option PyStr :=
  if v.kind = .xsdPatternFacets then
    match v.patterns with
    | some (p :: _) => some (convert_xsd_pattern_to_json p)
    | some [] => none
    | none =>
      match v.regexps with
      | some (r :: _) => some (convert_xsd_pattern_to_json r)
      | some [] => none
      | none => v.value.map (fun fv => convert_xsd_pattern_to_json fv.asStr)
  else none

def validatorEnum (v : Validator) : Option (List PyStr) :=
  match v.enumeration with
  | some (x :: xs) => some (x :: xs)
  | _ => none

def validatorMin (v : Validator) : Option Int :=
  if v.kind = .xsdMinLengthFacet ∨ v.kind = .xsdLengthFacet then
    v.value.map FacetValue.asInt
  else none

def validatorMax (v : Validator) : Option Int :=
  if v.kind = .xsdMaxLengthFacet ∨ v.kind = .xsdLengthFacet then
    v.value.map FacetValue.asInt
  else none

def pfacetPat (v : Validator) : Option PyStr :=
  if v.kind = .xsdPatternFacet then
    match v.value with
    | some fv => some (convert_xsd_pattern_to_json fv.asStr)
    | none => v.pattern.map convert_xsd_pattern_to_json
  else none

def strat1Pat (t : TypeObj) : Option PyStr := t.facets.bind facetsPat

def strat1Enum (t : TypeObj) : Option (List PyStr) := t.facets.bind facetsEnum

def strat1Min (t : TypeObj) : Option Int := t.facets.bind facetsMin

def strat1Max (t : TypeObj) : Option Int := t.facets.bind facetsMax

def strat2Pat (t : TypeObj) : Option PyStr :=
  (t.restrictions.filterMap (fun rf => rf.bind facetsPat)).getLast?

def strat2Enum (t : TypeObj) : Option (List PyStr) :=
  (t.restrictions.filterMap (fun rf => rf.bind facetsEnum)).getLast?

def strat2Min (t : TypeObj) : Option Int :=
  (t.restrictions.filterMap (fun rf => rf.bind facetsMin)).getLast?

def strat2Max (t : TypeObj) : Option Int :=
  (t.restrictions.filterMap (fun rf => rf.bind facetsMax)).getLast?

def strat3Pat (t : TypeObj) : Option PyStr :=
  if t.hasBaseTypeAttr then ((t.constraints.getD []).filterMap constraintPat).getLast?
  else none

def strat3Enum (t : TypeObj) : Option (List PyStr) :=
  if t.hasBaseTypeAttr then ((t.constraints.getD []).filterMap constraintEnum).getLast?
  else none

def strat3Min (t : TypeObj) : Option Int :=
  if t.hasBaseTypeAttr then ((t.constraints.getD []).filterMap constraintMin).getLast?
  else none

def strat3Max (t : TypeObj) : Option Int :=
  if t.hasBaseTypeAttr then ((t.constraints.getD []).filterMap constraintMax).getLast?
  else none

def strat4Pat (t : TypeObj) : Option PyStr :=
  ((t.validators.getD []).filterMap validatorPat).getLast?

def strat4Enum (t : TypeObj) : Option (List PyStr) :=
  ((t.validators.getD []).filterMap validatorEnum).getLast?

def strat4Min (t : TypeObj) : Option Int :=
  ((t.validators.getD []).filterMap validatorMin).getLast?

def strat4Max (t : TypeObj) : Option Int :=
  ((t.validators.getD []).filterMap validatorMax).getLast?

def strat5Pat (t : TypeObj) : Option PyStr :=
  (firstPatternNodeValue t.patterns).map convert_xsd_pattern_to_json

def strat6Pat (t : TypeObj) : Option PyStr :=
  ((t.validators.getD []).filterMap pfacetPat).getLast?

/-! ### Field evolution lemmas -/

/-- Generic fold lemma: when each step assigns `g i` into a field (keeping
the old value when `g i = none`), a left fold keeps the *last* discovered
value. -/
theorem foldl_field_or {σ ι τ : Type} (step : σ → ι → σ) (proj : σ → Option τ)
    (g : ι → Option τ) (hstep : ∀ j i, proj (step j i) = (g i).or (proj j))
    (l : List ι) (j : σ) :
    proj (l.foldl step j) = ((l.filterMap g).getLast?).or (proj j) := by
  induction l generalizing j with
  | nil => rfl
  | cons i il ih =>
    rw [List.foldl_cons, ih, hstep]
    cases hgi : g i with
    | none => simp [List.filterMap_cons, hgi, Option.or]
    | some v =>
      simp only [List.filterMap_cons, hgi, getLast?_cons_or, Option.or_assoc]

theorem apply_facets_fields (j : SimpleJsonType) (f : Facets) :
    (apply_facets j f).pattern = (facetsPat f).or j.pattern ∧
      (apply_facets j f).enum = (facetsEnum f).or j.enum ∧
      (apply_facets j f).minLength = (facetsMin f).or j.minLength ∧
      (apply_facets j f).maxLength = (facetsMax f).or j.maxLength := by
  obtain ⟨fmin, fmax, flen, fpat, fenum⟩ := f
  cases fmin <;> cases fmax <;> cases flen <;> cases fpat <;> cases fenum <;>
    simp [apply_facets, facetsPat, facetsEnum, facetsMin, facetsMax, Option.or]

theorem applyConstraint_fields (j : SimpleJsonType) (c : ConstraintEntry) :
    (applyConstraint j c).pattern = (constraintPat c).or j.pattern ∧
      (applyConstraint j c).enum = (constraintEnum c).or j.enum ∧
      (applyConstraint j c).minLength = (constraintMin c).or j.minLength ∧
      (applyConstraint j c).maxLength = (constraintMax c).or j.maxLength := by
  cases c <;>
    simp [applyConstraint, constraintPat, constraintEnum, constraintMin,
      constraintMax, Option.or]

theorem validatorStep_fields (j : SimpleJsonType) (v : Validator) :
    (validatorStep j v).pattern = (validatorPat v).or j.pattern ∧
      (validatorStep j v).enum = (validatorEnum v).or j.enum ∧
      (validatorStep j v).minLength = (validatorMin v).or j.minLength ∧
      (validatorStep j v).maxLength = (validatorMax v).or j.maxLength := by
  obtain ⟨k, e, ps, rs, val, pat⟩ := v
  cases k <;> rcases e with _ | ⟨_ | ⟨x, xs⟩⟩ <;> rcases ps with _ | ⟨_ | ⟨p, pt⟩⟩ <;>
    rcases rs with _ | ⟨_ | ⟨r, rt⟩⟩ <;> cases val <;>
    simp [validatorStep, validatorPat, validatorEnum, validatorMin, validatorMax,
      Option.or]

theorem patternFacetStep_fields (j : SimpleJsonType) (v : Validator) :
    (patternFacetStep j v).pattern = (pfacetPat v).or j.pattern ∧
      (patternFacetStep j v).enum = j.enum ∧
      (patternFacetStep j v).minLength = j.minLength ∧
      (patternFacetStep j v).maxLength = j.maxLength := by
  obtain ⟨k, e, ps, rs, val, pat⟩ := v
  cases k <;> cases val <;> cases pat <;>
    simp [patternFacetStep, pfacetPat, Option.or]

theorem strategyDirectFacets_fields (t : TypeObj) (j : SimpleJsonType) :
    (strategyDirectFacets t j).pattern = (strat1Pat t).or j.pattern ∧
      (strategyDirectFacets t j).enum = (strat1Enum t).or j.enum ∧
      (strategyDirectFacets t j).minLength = (strat1Min t).or j.minLength ∧
      (strategyDirectFacets t j).maxLength = (strat1Max t).or j.maxLength := by
  cases hf : t.facets with
  | none => simp [strategyDirectFacets, strat1Pat, strat1Enum, strat1Min, strat1Max,
      hf, Option.or]
  | some f =>
    simpa [strategyDirectFacets, strat1Pat, strat1Enum, strat1Min, strat1Max, hf]
      using apply_facets_fields j f

theorem strategyRestrictions_fields (t : TypeObj) (j : SimpleJsonType) :
    (strategyRestrictions t j).pattern = (strat2Pat t).or j.pattern ∧
      (strategyRestrictions t j).enum = (strat2Enum t).or j.enum ∧
      (strategyRestrictions t j).minLength = (strat2Min t).or j.minLength ∧
      (strategyRestrictions t j).maxLength = (strat2Max t).or j.maxLength := by
  refine ⟨?_, ?_, ?_, ?_⟩ <;>
  · apply foldl_field_or
    intro j rf
    cases rf with
    | none => simp [Option.or]
    | some f =>
      first
      | exact (apply_facets_fields j f).1
      | exact (apply_facets_fields j f).2.1
      | exact (apply_facets_fields j f).2.2.1
      | exact (apply_facets_fields j f).2.2.2

theorem strategyConstraints_fields (t : TypeObj) (j : SimpleJsonType) :
    (strategyConstraints t j).pattern = (strat3Pat t).or j.pattern ∧
      (strategyConstraints t j).enum = (strat3Enum t).or j.enum ∧
      (strategyConstraints t j).minLength = (strat3Min t).or j.minLength ∧
      (strategyConstraints t j).maxLength = (strat3Max t).or j.maxLength := by
  unfold strategyConstraints strat3Pat strat3Enum strat3Min strat3Max
  by_cases hb : t.hasBaseTypeAttr
  · simp only [hb, if_true]
    cases hc : t.constraints with
    | none => simp [Option.or]
    | some cs =>
      simp only [Option.getD]
      refine ⟨?_, ?_, ?_, ?_⟩ <;>
      · apply foldl_field_or
        intro j c
        first
        | exact (applyConstraint_fields j c).1
        | exact (applyConstraint_fields j c).2.1
        | exact (applyConstraint_fields j c).2.2.1
        | exact (applyConstraint_fields j c).2.2.2
  · simp [hb, Option.or]

theorem strategyValidators_fields (t : TypeObj) (j : SimpleJsonType) :
    (strategyValidators t j).pattern = (strat4Pat t).or j.pattern ∧
      (strategyValidators t j).enum = (strat4Enum t).or j.enum ∧
      (strategyValidators t j).minLength = (strat4Min t).or j.minLength ∧
      (strategyValidators t j).maxLength = (strat4Max t).or j.maxLength := by
  unfold strategyValidators strat4Pat strat4Enum strat4Min strat4Max
  cases hv : t.validators with
  | none => simp [Option.or]
  | some vs =>
    simp only [Option.getD]
    refine ⟨?_, ?_, ?_, ?_⟩ <;>
    · apply foldl_field_or
      intro j v
      first
      | exact (validatorStep_fields j v).1
      | exact (validatorStep_fields j v).2.1
      | exact (validatorStep_fields j v).2.2.1
      | exact (validatorStep_fields j v).2.2.2

theorem strategyPatternNodes_fields (t : TypeObj) (j : SimpleJsonType) :
    (strategyPatternNodes t j).pattern = (strat5Pat t).or j.pattern ∧
      (strategyPatternNodes t j).enum = j.enum ∧
      (strategyPatternNodes t j).minLength = j.minLength ∧
      (strategyPatternNodes t j).maxLength = j.maxLength := by
  unfold strategyPatternNodes strat5Pat
  cases hv : firstPatternNodeValue t.patterns <;> simp [hv, Option.or]

theorem filterMap_none {ι τ : Type} (l : List ι) :
    l.filterMap (fun _ => (none : Option τ)) = [] := by
  induction l <;> simp [List.filterMap_cons, *]

theorem strategyPatternFacet_fields (t : TypeObj) (j : SimpleJsonType) :
    (strategyPatternFacet t j).pattern = (strat6Pat t).or j.pattern ∧
      (strategyPatternFacet t j).enum = j.enum ∧
      (strategyPatternFacet t j).minLength = j.minLength ∧
      (strategyPatternFacet t j).maxLength = j.maxLength := by
  unfold strategyPatternFacet strat6Pat
  cases hv : t.validators with
  | none => simp [Option.or]
  | some vs =>
    simp only [Option.getD]
    refine ⟨?_, ?_, ?_, ?_⟩
    · exact foldl_field_or patternFacetStep (fun s => s.pattern) pfacetPat
        (fun j v => (patternFacetStep_fields j v).1) vs j
    · rw [foldl_field_or patternFacetStep (fun s => s.enum) (fun _ => none)
        (fun j v => (patternFacetStep_fields j v).2.1) vs j, filterMap_none]
      rfl
    · rw [foldl_field_or patternFacetStep (fun s => s.minLength) (fun _ => none)
        (fun j v => (patternFacetStep_fields j v).2.2.1) vs j, filterMap_none]
      rfl
    · rw [foldl_field_or patternFacetStep (fun s => s.maxLength) (fun _ => none)
        (fun j v => (patternFacetStep_fields j v).2.2.2) vs j, filterMap_none]
      rfl

theorem inferKind_fields (t : TypeObj) (j : SimpleJsonType) :
    (inferKind t j).pattern = j.pattern ∧ (inferKind t j).enum = j.enum ∧
      (inferKind t j).minLength = j.minLength ∧
      (inferKind t j).maxLength = j.maxLength := by
  unfold inferKind
  split <;>
    first
    | exact ⟨rfl, rfl, rfl, rfl⟩
    | · split <;>
          first
          | exact ⟨rfl, rfl, rfl, rfl⟩
          | · split <;>
                first
                | exact ⟨rfl, rfl, rfl, rfl⟩
                | · split <;>
                      first
                      | exact ⟨rfl, rfl, rfl, rfl⟩
                      | split <;> exact ⟨rfl, rfl, rfl, rfl⟩

/-- The extractor's concrete input for the merge-order counterexample: the
direct facet map (strategy 1) carries pattern `A`, while a raw pattern node
(strategy 5) carries pattern `B`.  All other attributes are absent. -/
def mergeOrderWitnessInput : TypeObj :=
  { facets := some ⟨none, none, none, some "A".toList, none⟩,
    restrictions := [],
    hasBaseTypeAttr := false,
    constraints := none,
    validators := none,
    patterns := [⟨some "B".toList, none, none, none⟩],
    pythonType := none,
    baseTypeLocalName := none }

/-- **C1 (counterexample).**  Strategies do *not* merge first-found-wins: on
`mergeOrderWitnessInput` the first strategy (direct facet map) discovers
pattern `A`, a later strategy (raw pattern-node scan) discovers pattern `B`,
and the resulting record holds the later `^B$` — the first discovered
pattern is discarded, not kept. -/
theorem facet_merge_first_wins_counterexample :
    strat1Pat mergeOrderWitnessInput = some "^A$".toList ∧
      strat5Pat mergeOrderWitnessInput = some "^B$".toList ∧
      (convert_simple_type mergeOrderWitnessInput).pattern = some "^B$".toList ∧
      "^B$".toList ≠ "^A$".toList := by
  refine ⟨by decide, by decide, by decide, by decide⟩

/-- **C1 (amended).**  When more than one extraction strategy discovers a
value for the same constraint field, the value set by the *later* strategy
(in the fixed order: direct facet map, restriction list, inline
constraints, discriminated validator list, raw pattern-node scan, singular
pattern-facet validator scan) is the one present in the resulting record —
last-found-wins per field.  In particular, the *last* pattern-discovering
strategy wins; each strategy itself contributes at most one pattern (its
own list scans keep only their first candidate, and a traversal's last
assigning entry survives within strategies 2, 3, 4 and 6). -/
theorem convert_simple_type_last_found_wins (t : TypeObj) :
    (convert_simple_type t).pattern =
        (strat6Pat t).or ((strat5Pat t).or ((strat4Pat t).or
          ((strat3Pat t).or ((strat2Pat t).or (strat1Pat t))))) ∧
      (convert_simple_type t).enum =
        (strat4Enum t).or ((strat3Enum t).or ((strat2Enum t).or (strat1Enum t))) ∧
      (convert_simple_type t).minLength =
        (strat4Min t).or ((strat3Min t).or ((strat2Min t).or (strat1Min t))) ∧
      (convert_simple_type t).maxLength =
        (strat4Max t).or ((strat3Max t).or ((strat2Max t).or (strat1Max t))) := by
  unfold convert_simple_type
  refine ⟨?_, ?_, ?_, ?_⟩
  · rw [(inferKind_fields t _).1, (strategyPatternFacet_fields t _).1,
      (strategyPatternNodes_fields t _).1, (strategyValidators_fields t _).1,
      (strategyConstraints_fields t _).1, (strategyRestrictions_fields t _).1,
      (strategyDirectFacets_fields t _).1]
    simp [initJsonType, Option.or_assoc]
  · rw [(inferKind_fields t _).2.1, (strategyPatternFacet_fields t _).2.1,
      (strategyPatternNodes_fields t _).2.1, (strategyValidators_fields t _).2.1,
      (strategyConstraints_fields t _).2.1, (strategyRestrictions_fields t _).2.1,
      (strategyDirectFacets_fields t _).2.1]
    simp [initJsonType, Option.or_assoc]
  · rw [(inferKind_fields t _).2.2.1, (strategyPatternFacet_fields t _).2.2.1,
      (strategyPatternNodes_fields t _).2.2.1, (strategyValidators_fields t _).2.2.1,
      (strategyConstraints_fields t _).2.2.1, (strategyRestrictions_fields t _).2.2.1,
      (strategyDirectFacets_fields t _).2.2.1]
    simp [initJsonType, Option.or_assoc]
  · rw [(inferKind_fields t _).2.2.2, (strategyPatternFacet_fields t _).2.2.2,
      (strategyPatternNodes_fields t _).2.2.2, (strategyValidators_fields t _).2.2.2,
      (strategyConstraints_fields t _).2.2.2, (strategyRestrictions_fields t _).2.2.2,
      (strategyDirectFacets_fields t _).2.2.2]
    simp [initJsonType, Option.or_assoc]

/-! ## ComplexTypeProjector: `_convert_complex_type`

```python
json_type = {"type": "object", "additionalProperties": False,
             "properties": {}, "description": f"Complex type: {name}"}
required_fields = []
for element in type_obj.content.iter_elements():
    json_type['properties'][element.local_name] = self._get_property_type(element)
    if hasattr(element, 'min_occurs') and element.min_occurs > 0:
        required_fields.append(element.local_name)
for attr_name, attr in type_obj.attributes.items():
    json_type['properties'][attr_name] = self._get_attribute_type(attr)
    if hasattr(attr, 'use') and attr.use == 'required':
        required_fields.append(attr_name)
if required_fields:
    json_type['required'] = required_fields
```
-/

/-- Python dict assignment on an association list: replace in place when the
key exists, append otherwise. -/
def alSet {κ ν : Type} [DecidableEq κ] : List (κ × ν) → κ → ν → List (κ × ν)
  | [], k, v => [(k, v)]
  | (k', v') :: rest, k, v =>
    if k' = k then (k, v) :: rest else (k', v') :: alSet rest k v

/-- The value of one `properties` entry: a `$ref` to a converted type name,
or the plain string fallback. -/
inductive PropSchema where
  | ref (name : PyStr)
  | strType
deriving DecidableEq

/-- A child element declaration: `typeName` is `element.type.name` when the
element has a truthy type with a truthy name (else the string fallback
applies); `minOccurs` is the `hasattr`-guarded occurrence bound. -/
structure XsdElement where
  localName : PyStr
  typeName : Option PyStr
  minOccurs : Option Int
deriving DecidableEq

/-- An attribute declaration: `use` is the `hasattr`-guarded use-mode. -/
structure XsdAttr where
  typeName : Option PyStr
  use : Option PyStr
deriving DecidableEq

/-- A complex type restricted to the attributes `_convert_complex_type`
reads (`[]` = content/attributes absent or empty, both a no-op loop). -/
structure XsdComplexType where
  contentElements : List XsdElement
  attributes : List (PyStr × XsdAttr)
deriving DecidableEq

/-- `_get_property_type` -/
def get_property_type (e : XsdElement) : PropSchema :=
  match e.typeName with
  | some nm => .ref (convert_type_name nm)
  | none => .strType

/-- `_get_attribute_type` -/
def get_attribute_type (a : XsdAttr) : PropSchema :=
  match a.typeName with
  | some nm => .ref (convert_type_name nm)
  | none => .strType

/-- The object-kind record `_convert_complex_type` builds. -/
structure ComplexJsonType where
  type : PyStr
  additionalProperties : Bool
  properties : List (PyStr × PropSchema)
  description : PyStr
  required : Option (List PyStr)
deriving DecidableEq

/-- Element-loop body: adds the property and possibly the required name. -/
def complexElemStep (acc : List (PyStr × PropSchema) × List PyStr) (e : XsdElement) :
    List (PyStr × PropSchema) × List PyStr :=
  (alSet acc.1 e.localName (get_property_type e),
    match e.minOccurs with
    | some n => if 0 < n then acc.2 ++ [e.localName] else acc.2
    | none => acc.2)

/-- Attribute-loop body. -/
def complexAttrStep (acc : List (PyStr × PropSchema) × List PyStr)
    (p : PyStr × XsdAttr) : List (PyStr × PropSchema) × List PyStr :=
  (alSet acc.1 p.1 (get_attribute_type p.2),
    if p.2.use = some "required".toList then acc.2 ++ [p.1] else acc.2)

/-- `_convert_complex_type` -/
def convert_complex_type (t : XsdComplexType) (name : PyStr) : ComplexJsonType :=
  let acc := t.contentElements.foldl complexElemStep ([], [])
  let acc := t.attributes.foldl complexAttrStep acc
  { type := "object".toList,
    additionalProperties := false,
    properties := acc.1,
    description := "Complex type: ".toList ++ name,
    required := if acc.2 = [] then none else some acc.2 }

/-- Whether an element lands in `required_fields`. -/
def elemRequired (e : XsdElement) : Bool :=
  match e.minOccurs with
  | some n => 0 < n
  | none => false

/-- Whether an attribute lands in `required_fields`. -/
def attrRequired (p : PyStr × XsdAttr) : Bool :=
  p.2.use = some "required".toList

theorem complexElemStep_snd (es : List XsdElement)
    (acc : List (PyStr × PropSchema) × List PyStr) :
    (es.foldl complexElemStep acc).2 =
      acc.2 ++ (es.filter elemRequired).map XsdElement.localName := by
  induction es generalizing acc with
  | nil => simp
  | cons e et ih =>
    rw [List.foldl_cons, ih]
    cases hm : e.minOccurs with
    | none => simp [complexElemStep, elemRequired, hm]
    | some n =>
      by_cases hn : 0 < n <;>
        simp [complexElemStep, elemRequired, hm, hn, List.filter_cons]

theorem complexAttrStep_snd (ats : List (PyStr × XsdAttr))
    (acc : List (PyStr × PropSchema) × List PyStr) :
    (ats.foldl complexAttrStep acc).2 =
      acc.2 ++ (ats.filter attrRequired).map Prod.fst := by
  induction ats generalizing acc with
  | nil => simp
  | cons a at' ih =>
    rw [List.foldl_cons, ih]
    simp only [complexAttrStep]
    by_cases hu : a.2.use = some "required".toList
    · have hb : attrRequired a = true := by simpa [attrRequired] using hu
      rw [if_pos hu, List.filter_cons, if_pos hb, List.map_cons]
      simp
    · have hb : ¬attrRequired a = true := by simpa [attrRequired] using hu
      rw [if_neg hu, List.filter_cons, if_neg hb]

/-- **C10.**  Every object-kind record produced by `_convert_complex_type`
disallows additional properties unconditionally (the function takes no
strict flag at all), and its `required` key is present exactly when at
least one member is required: some element has a positive
minimum-occurrence bound, or some attribute has use-mode `required`. -/
theorem convert_complex_type_invariants (t : XsdComplexType) (name : PyStr) :
    (convert_complex_type t name).additionalProperties = false ∧
      ((convert_complex_type t name).required.isSome ↔
        ((∃ e ∈ t.contentElements, elemRequired e = true) ∨
          (∃ p ∈ t.attributes, attrRequired p = true))) := by
  refine ⟨rfl, ?_⟩
  simp only [convert_complex_type]
  rw [complexAttrStep_snd, complexElemStep_snd]
  simp only [List.nil_append]
  by_cases h : (t.contentElements.filter elemRequired).map XsdElement.localName ++
      (t.attributes.filter attrRequired).map Prod.fst = []
  · rw [if_pos h]
    simp only [Option.isSome_none, Bool.false_eq_true, false_iff]
    rw [List.append_eq_nil] at h
    rintro (⟨e, he, hr⟩ | ⟨p, hp, hr⟩)
    · have hm : e.localName ∈ (t.contentElements.filter elemRequired).map
          XsdElement.localName :=
        List.mem_map_of_mem _ (List.mem_filter.mpr ⟨he, hr⟩)
      rw [h.1] at hm
      exact absurd hm (List.not_mem_nil _)
    · have hm : p.1 ∈ (t.attributes.filter attrRequired).map Prod.fst :=
        List.mem_map_of_mem _ (List.mem_filter.mpr ⟨hp, hr⟩)
      rw [h.2] at hm
      exact absurd hm (List.not_mem_nil _)
  · rw [if_neg h]
    simp only [Option.isSome_some, true_iff]
    rcases List.exists_mem_of_ne_nil _ h with ⟨x, hx⟩
    rcases List.mem_append.mp hx with hx | hx
    · rcases List.mem_map.mp hx with ⟨e, he, _⟩
      exact Or.inl ⟨e, (List.mem_filter.mp he).1, (List.mem_filter.mp he).2⟩
    · rcases List.mem_map.mp hx with ⟨p, hp, _⟩
      exact Or.inr ⟨p, (List.mem_filter.mp hp).1, (List.mem_filter.mp hp).2⟩

/-! ## SwaggerSchemaApplier (`apply-schema-to-swagger.py`)

YAML/JSON trees are modelled by `JValue`; Python dicts by association
lists (`alSet`/`alGet` give Python's assignment and `.get` semantics).
The registry `schema_mappings` maps names to definition dicts. -/

/-- A parsed YAML/JSON value. -/
inductive JValue where
  | null
  | jbool (b : Bool)
  | jnum (n : Int)
  | jstr (s : String)
  | jarr (vs : List JValue)
  | jobj (fields : List (String × JValue))

/-- A dict node of the document tree. -/
abbrev JDict := List (String × JValue)

/-- `self.schema_mappings`: canonical name → definition dict. -/
abbrev Registry := List (String × JDict)

/-- Python dict `.get` / `in` on an association list (first match). -/
def alGet {κ ν : Type} [DecidableEq κ] : List (κ × ν) → κ → Option ν
  | [], _ => none
  | (k', v) :: rest, k => if k' = k then some v else alGet rest k

/-- Python truthiness of a tree value. -/
def jTruthy : JValue → Bool
  | .null => false
  | .jbool b => b
  | .jnum n => n ≠ 0
  | .jstr s => s ≠ ""
  | .jarr vs => !vs.isEmpty
  | .jobj fields => !fields.isEmpty

/-- Python `str.lower` (ASCII). -/
def pyLower (s : String) : String := ⟨s.data.map asciiLower⟩

/-- Python substring containment (`needle in hay`). -/
def listIsInfix {α : Type} [DecidableEq α] (needle : List α) : List α → Bool
  | [] => needle.isEmpty
  | c :: t => needle.isPrefixOf (c :: t) || listIsInfix needle t

/-- `needle in hay` on strings. -/
def pyInStr (needle hay : String) : Bool := listIsInfix needle.data hay.data

/-- The field-mapping table (identical literal in `_add_base_validation_types`,
`_enhance_property` and `_enhance_top_level_schema`). -/
def field_mappings : List (String × String) :=
  [("Date", "Date8"), ("Time", "Time6"), ("MgmtCode", "MgmtCodeType"),
   ("DlrCode", "Length4"), ("IntCode", "Alpha3To4"), ("SrcID", "String15"),
   ("FundAcctID", "String15"), ("FundID", "String3To5"), ("OrdID", "String5To7"),
   ("AmtValue", "Value14"), ("SrcType", "SrcType"), ("ActnCode", "ActnCode"),
   ("AcctDesig", "AcctDesigType"), ("AmtType", "AmtType")]

/-- `_find_schema_key_case_insensitive`: exact lookup first, then the first
key whose lower-cased form matches.  (The code after its `return None` is
unreachable and not modelled.) -/
def find_schema_key_case_insensitive (m : Registry) (name : String) : Option String :=
  if (alGet m name).isSome then some name
  else (m.map Prod.fst).find? (fun k => pyLower k = pyLower name)

/-- `if key in source: dest[key] = source[key]` -/
def copyIfPresent (source : JDict) (d : JDict) (k : String) : JDict :=
  match alGet source k with
  | some v => alSet d k v
  | none => d

/-- `if snapshot: dest[key] = snapshot` (the defensive metadata restore;
the snapshot is `None` when the key was absent, and falsy values are not
restored). -/
def restoreIfTruthy (d : JDict) (k : String) (o : Option JValue) : JDict :=
  match o with
  | some v => if jTruthy v then alSet d k v else d
  | none => d

/-- The matched-rule body of `_enhance_property`: snapshot metadata, copy
`type`/`pattern`/`minLength`/`maxLength`/`enum`/`format` when present in the
source record, restore non-empty metadata. -/
def enhance_property_apply (source : JDict) (pd : JDict) : JDict :=
  let origDocs := alGet pd "externalDocs"
  let origExample := alGet pd "example"
  let origDescription := alGet pd "description"
  let pd := copyIfPresent source pd "type"
  let pd := copyIfPresent source pd "pattern"
  let pd := copyIfPresent source pd "minLength"
  let pd := copyIfPresent source pd "maxLength"
  let pd := copyIfPresent source pd "enum"
  let pd := copyIfPresent source pd "format"
  let pd := restoreIfTruthy pd "externalDocs" origDocs
  let pd := restoreIfTruthy pd "example" origExample
  restoreIfTruthy pd "description" origDescription

/-- The `for field_pattern, schema_type in field_mappings.items()` loop of
`_enhance_property`: first entry whose substring occurs in the property
name *and* whose mapped type resolves wins, then `break`. -/
def enhance_property_loop (m : Registry) (pn : String) :
    List (String × String) → JDict → JDict
  | [], pd => pd
  | (fp, st) :: rest, pd =>
    match find_schema_key_case_insensitive m st with
    | some key =>
      if pyInStr fp pn then enhance_property_apply ((alGet m key).getD []) pd
      else enhance_property_loop m pn rest pd
    | none => enhance_property_loop m pn rest pd

/-- `_enhance_property` -/
def enhance_property (m : Registry) (propName : String) (propDef : JDict) : JDict :=
  enhance_property_loop m propName field_mappings propDef

/-- The matched-mapping body of `_enhance_top_level_schema` (same as the
property body but without the `type` copy). -/
def enhance_top_level_apply (source : JDict) (sd : JDict) : JDict :=
  let origDocs := alGet sd "externalDocs"
  let origExample := alGet sd "example"
  let origDescription := alGet sd "description"
  let sd := copyIfPresent source sd "pattern"
  let sd := copyIfPresent source sd "minLength"
  let sd := copyIfPresent source sd "maxLength"
  let sd := copyIfPresent source sd "enum"
  let sd := copyIfPresent source sd "format"
  let sd := restoreIfTruthy sd "externalDocs" origDocs
  let sd := restoreIfTruthy sd "example" origExample
  restoreIfTruthy sd "description" origDescription

/-- The fallback branch of `_enhance_top_level_schema`: a case-insensitive
match on the schema's own name copies `enum`/`pattern`/`minLength`/
`maxLength` unconditionally and sets `description` only when absent. -/
def enhance_top_level_fallback (m : Registry) (name : String) (sd : JDict) : JDict :=
  match find_schema_key_case_insensitive m name with
  | some key =>
    let jv := (alGet m key).getD []
    let sd := copyIfPresent jv sd "enum"
    let sd := copyIfPresent jv sd "pattern"
    let sd := copyIfPresent jv sd "minLength"
    let sd := copyIfPresent jv sd "maxLength"
    match alGet jv "description" with
    | some dv =>
      if (alGet sd "description").isSome then sd else alSet sd "description" dv
    | none => sd
  | none => sd

/-- `schema_def.get('type') == ty` (Python `==`: true only on an equal
string). -/
def typeIs (d : JDict) (ty : String) : Bool :=
  match alGet d "type" with
  | some (.jstr s) => s == ty
  | _ => false

/-- `_enhance_top_level_schema` -/
def enhance_top_level_schema (m : Registry) (name : String) (sd : JDict) : JDict :=
  if ¬(typeIs sd "string") then sd
  else
    match alGet field_mappings name with
    | some vt =>
      match find_schema_key_case_insensitive m vt with
      | some key => enhance_top_level_apply ((alGet m key).getD []) sd
      | none => enhance_top_level_fallback m name sd
    | none => enhance_top_level_fallback m name sd

/-- `_enhance_schema_object`: object-kind schemas get the strict
additional-properties default and per-property enhancement.  (A non-mapping
`properties` value or property node would raise in Python; such nodes are
outside the modelled fragment and left unchanged.) -/
def enhance_schema_object (m : Registry) (strict : Bool) (d : JDict) : JDict :=
  if typeIs d "object" then
    let d :=
      if strict ∧ ¬(alGet d "additionalProperties").isSome then
        alSet d "additionalProperties" (.jbool false)
      else d
    match alGet d "properties" with
    | some (.jobj props) =>
      alSet d "properties" (.jobj (props.map (fun p =>
        match p.2 with
        | .jobj pdd => (p.1, .jobj (enhance_property m p.1 pdd))
        | _ => p)))
    | _ => d
  else d

/-- `_enhance_existing_schemas`: per entry, `if isinstance(schema, dict)`
guards the enhancement — non-dict entries are left as they are.  (The
`original_schema` copy and inequality test only drive logging.) -/
def enhance_existing_schemas (m : Registry) (strict : Bool) (schemas : JDict) : JDict :=
  schemas.map (fun e =>
    match e.2 with
    | .jobj d =>
      (e.1, .jobj (enhance_top_level_schema m e.1 (enhance_schema_object m strict d)))
    | _ => e)

/-- A Swagger document restricted to what the overlays read:
`info.title` and `components.schemas` (absent levels collapse to `none`). -/
structure SwaggerDoc where
  title : Option String
  schemas : Option JDict

/-- The static `error_schemas` table of `_enhance_error_schemas`. -/
def error_schemas : List (String × JValue) :=
  [("ErrorCode", .jobj [("type", .jstr "string"), ("pattern", .jstr "^\\d{3}$"),
      ("description", .jstr "3-digit error code")]),
   ("CorrlatnID", .jobj [("type", .jstr "string"), ("maxLength", .jnum 48),
      ("description", .jstr "Correlation ID for tracking")])]

/-- `if name not in schemas: schemas[name] = definition` -/
def insertIfAbsent (acc : JDict) (nv : String × JValue) : JDict :=
  if (alGet acc nv.1).isSome then acc else alSet acc nv.1 nv.2

/-- `_enhance_error_schemas` -/
def enhance_error_schemas (doc : SwaggerDoc) : SwaggerDoc :=
  match doc.schemas with
  | none => doc
  | some s => { doc with schemas := some (error_schemas.foldl insertIfAbsent s) }

/-- The static `enums` table of `_add_enum_types`. -/
def enums_table : List (String × JValue) :=
  [("SrcType", .jobj [("type", .jstr "string"),
      ("enum", .jarr [.jstr "D", .jstr "I", .jstr "F"]),
      ("description", .jstr "Source type - D for Dealer, I for Intermediary, F for Fund")]),
   ("ActnCode", .jobj [("type", .jstr "string"),
      ("enum", .jarr [.jstr "NEW", .jstr "CHG", .jstr "CAN", .jstr "CAX",
        .jstr "AOT", .jstr "REV"]),
      ("description", .jstr "Action code")]),
   ("AcctDesigType", .jobj [("type", .jstr "string"),
      ("enum", .jarr [.jstr "1", .jstr "2", .jstr "3"]),
      ("description", .jstr "Account designation")]),
   ("AmtType", .jobj [("type", .jstr "string"),
      ("enum", .jarr [.jstr "A", .jstr "D", .jstr "F", .jstr "M", .jstr "P",
        .jstr "S", .jstr "T", .jstr "B", .jstr "C", .jstr "J", .jstr "L",
        .jstr "G", .jstr "H"]),
      ("description", .jstr "Amount type")]),
   ("SettlMethd", .jobj [("type", .jstr "string"),
      ("enum", .jarr [.jstr "1", .jstr "2", .jstr "3", .jstr "4", .jstr "5",
        .jstr "6"]),
      ("description", .jstr "Settlement method")]),
   ("RspnSrc", .jobj [("type", .jstr "string"),
      ("enum", .jarr [.jstr "I", .jstr "F", .jstr "N"]),
      ("description", .jstr "Response source")]),
   ("RtnCode", .jobj [("type", .jstr "string"),
      ("enum", .jarr [.jstr "00", .jstr "01", .jstr "98", .jstr "99", .jstr "50"]),
      ("description", .jstr "Return code")])]

/-- `_add_enum_types`: unconditional `schemas[name] = definition`. -/
def add_enum_types (schemas : JDict) : JDict :=
  enums_table.foldl (fun acc nv => alSet acc nv.1 nv.2) schemas

/-- The fixed keyword table of `_add_transaction_type_validations`. -/
def transaction_types : List (String × JDict) :=
  [("Buy", [("enum", .jarr [.jstr "1"]),
      ("description", .jstr "Transaction type for Buy orders")]),
   ("Sell", [("enum", .jarr [.jstr "5"]),
      ("description", .jstr "Transaction type for Sell orders")]),
   ("Switch", [("enum", .jarr [.jstr "8"]),
      ("description", .jstr "Transaction type for Switch orders")]),
   ("Transfer", [("enum", .jarr [.jstr "7"]),
      ("description", .jstr "Transaction type for Transfer orders")]),
   ("ICT", [("enum", .jarr [.jstr "6"]),
      ("description", .jstr "Transaction type for ICT orders")])]

/-- The keyword loop: case-insensitive substring match on the title, inject
`TrxnTyp<keyword> = {'type': 'string', **trxn_def}`, then `break`. -/
def txn_loop (title : String) : List (String × JDict) → JDict → JDict
  | [], s => s
  | (k, tdef) :: rest, s =>
    if pyInStr (pyLower k) (pyLower title) then
      alSet s ("TrxnTyp" ++ k) (.jobj (("type", .jstr "string") :: tdef))
    else txn_loop title rest s

/-- `_add_transaction_type_validations` -/
def add_transaction_type_validations (doc : SwaggerDoc) : SwaggerDoc :=
  let apiTitle := doc.title.getD ""
  match doc.schemas with
  | none => doc
  | some s => { doc with schemas := some (txn_loop apiTitle transaction_types s) }

/-! ### Association-list lemmas -/

theorem alGet_alSet_self {κ ν : Type} [DecidableEq κ] (d : List (κ × ν)) (k : κ) (v : ν) :
    alGet (alSet d k v) k = some v := by
  induction d with
  | nil => simp [alSet, alGet]
  | cons e rest ih =>
    obtain ⟨k', v'⟩ := e
    by_cases h : k' = k <;> simp [alSet, alGet, h, ih]

theorem alGet_alSet_ne {κ ν : Type} [DecidableEq κ] (d : List (κ × ν)) (kset kread : κ)
    (v : ν) (h : ¬kset = kread) : alGet (alSet d kset v) kread = alGet d kread := by
  induction d with
  | nil => simp [alSet, alGet, h]
  | cons e rest ih =>
    obtain ⟨k', v'⟩ := e
    by_cases h' : k' = kset <;> simp [alSet, alGet, h', h, ih]

theorem alGet_copyIfPresent_self (s d : JDict) (k : String) :
    alGet (copyIfPresent s d k) k = (alGet s k).or (alGet d k) := by
  unfold copyIfPresent
  cases h : alGet s k <;> simp [alGet_alSet_self, Option.or]

theorem alGet_copyIfPresent_ne (s d : JDict) (kc kread : String) (h : ¬kc = kread) :
    alGet (copyIfPresent s d kc) kread = alGet d kread := by
  unfold copyIfPresent
  cases hs : alGet s kc
  · rfl
  · exact alGet_alSet_ne d kc kread _ h

theorem alGet_restoreIfTruthy_self (d : JDict) (k : String) (v : JValue)
    (ht : jTruthy v = true) :
    alGet (restoreIfTruthy d k (some v)) k = some v := by
  simp [restoreIfTruthy, ht, alGet_alSet_self]

theorem alGet_restoreIfTruthy_ne (d : JDict) (kr kread : String) (o : Option JValue)
    (h : ¬kr = kread) : alGet (restoreIfTruthy d kr o) kread = alGet d kread := by
  cases o with
  | none => rfl
  | some v =>
    by_cases ht : jTruthy v = true
    · simp only [restoreIfTruthy, if_pos ht]
      exact alGet_alSet_ne d kr kread v h
    · simp only [restoreIfTruthy, if_neg ht]

/-! ### C2: metadata preservation of `_enhance_property` -/

theorem enhance_property_apply_metadata (source pd : JDict) (dv ev xv : JValue)
    (hd : alGet pd "description" = some dv) (hdt : jTruthy dv = true)
    (he : alGet pd "example" = some ev) (het : jTruthy ev = true)
    (hx : alGet pd "externalDocs" = some xv) (hxt : jTruthy xv = true) :
    alGet (enhance_property_apply source pd) "description" = some dv ∧
      alGet (enhance_property_apply source pd) "example" = some ev ∧
      alGet (enhance_property_apply source pd) "externalDocs" = some xv := by
  simp only [enhance_property_apply, hd, he, hx]
  refine ⟨?_, ?_, ?_⟩
  · exact alGet_restoreIfTruthy_self _ _ _ hdt
  · rw [alGet_restoreIfTruthy_ne _ _ _ _ (by decide)]
    exact alGet_restoreIfTruthy_self _ _ _ het
  · rw [alGet_restoreIfTruthy_ne _ _ _ _ (by decide),
      alGet_restoreIfTruthy_ne _ _ _ _ (by decide)]
    exact alGet_restoreIfTruthy_self _ _ _ hxt

theorem enhance_property_loop_cases (m : Registry) (pn : String)
    (fm : List (String × String)) (pd : JDict) :
    enhance_property_loop m pn fm pd = pd ∨
      ∃ source, enhance_property_loop m pn fm pd = enhance_property_apply source pd := by
  induction fm with
  | nil => exact Or.inl rfl
  | cons e rest ih =>
    obtain ⟨fp, st⟩ := e
    simp only [enhance_property_loop]
    cases find_schema_key_case_insensitive m st with
    | none => exact ih
    | some key =>
      dsimp only
      by_cases h : pyInStr fp pn = true
      · exact Or.inr ⟨_, by rw [if_pos h]⟩
      · rw [if_neg h]; exact ih

/-- **C2.**  For every property node whose `description`, `example` and
`externalDocs` are present and non-empty before enhancement, those three
values are identical after `_enhance_property` runs, whether or not the
property matched a field-mapping rule: the copy step never writes those
keys and the defensive restore puts every non-empty snapshot back. -/
theorem enhance_property_preserves_metadata (m : Registry) (pn : String)
    (pd : JDict) (dv ev xv : JValue)
    (hd : alGet pd "description" = some dv) (hdt : jTruthy dv = true)
    (he : alGet pd "example" = some ev) (het : jTruthy ev = true)
    (hx : alGet pd "externalDocs" = some xv) (hxt : jTruthy xv = true) :
    alGet (enhance_property m pn pd) "description" = some dv ∧
      alGet (enhance_property m pn pd) "example" = some ev ∧
      alGet (enhance_property m pn pd) "externalDocs" = some xv := by
  rcases enhance_property_loop_cases m pn field_mappings pd with h | ⟨source, h⟩
  · rw [enhance_property, h]; exact ⟨hd, he, hx⟩
  · rw [enhance_property, h]
    exact enhance_property_apply_metadata source pd dv ev xv hd hdt he het hx hxt

/-- **C2 (witness).**  A concrete matching property (`TradeDate` matches the
`Date → Date8` rule) with all three metadata attributes populated. -/
theorem enhance_property_preserves_metadata_witness :
    (alGet [("description", JValue.jstr "d"), ("example", JValue.jstr "e"),
        ("externalDocs", JValue.jobj [("url", JValue.jstr "u")])]
        "description" = some (JValue.jstr "d") ∧
      jTruthy (JValue.jstr "d") = true) ∧
    alGet (enhance_property [("Date8", [("type", JValue.jstr "string")])] "TradeDate"
        [("description", JValue.jstr "d"), ("example", JValue.jstr "e"),
          ("externalDocs", JValue.jobj [("url", JValue.jstr "u")])])
      "description" = some (JValue.jstr "d") :=
  ⟨⟨rfl, by decide⟩,
    (enhance_property_preserves_metadata
      [("Date8", [("type", JValue.jstr "string")])] "TradeDate"
      [("description", JValue.jstr "d"), ("example", JValue.jstr "e"),
        ("externalDocs", JValue.jobj [("url", JValue.jstr "u")])]
      (JValue.jstr "d") (JValue.jstr "e") (JValue.jobj [("url", JValue.jstr "u")])
      rfl (by decide) rfl (by decide) rfl (by decide)).1⟩

/-! ### C5: the top-level fallback path -/

/-- A registry whose entry `Foo` carries an enum, for the fallback
counterexample. -/
def c5Registry : Registry := [("Foo", [("enum", JValue.jarr [JValue.jstr "Y"])])]

/-- A top-level string schema named `foo` (case-insensitive match on `Foo`,
no field-mapping key) that already has an enum. -/
def c5Schema : JDict := [("type", JValue.jstr "string"), ("enum", JValue.jarr [JValue.jstr "X"])]

/-- **C5 (counterexample).**  The fallback path does *not* only fill absent
attributes: schema `foo` already carries `enum [X]`, its name matches
registry key `Foo` case-insensitively, no field-mapping entry applies, and
after enhancement the enum has been replaced by the registry's `[Y]`. -/
theorem top_level_fallback_overwrite_counterexample :
    alGet field_mappings "foo" = none ∧
      alGet c5Schema "enum" = some (JValue.jarr [JValue.jstr "X"]) ∧
      alGet (enhance_top_level_schema c5Registry "foo" c5Schema) "enum" =
        some (JValue.jarr [JValue.jstr "Y"]) ∧
      JValue.jarr [JValue.jstr "Y"] ≠ JValue.jarr [JValue.jstr "X"] := by
  refine ⟨rfl, rfl, rfl, ?_⟩
  simp

/-- **C5 (amended).**  For a top-level string-kind schema whose own name
matches a registry key case-insensitively but which is not a field-mapping
key, the fallback path copies `enum`, `pattern`, `minLength` and `maxLength`
from the registry entry *unconditionally* — overwriting any present value —
whenever the entry carries them (and leaves them untouched when it does
not); only `description` is filled solely when currently absent and never
overwritten. -/
theorem enhance_top_level_fallback_behavior (m : Registry) (name : String)
    (sd : JDict) (key : String) (jv : JDict)
    (hty : typeIs sd "string" = true)
    (hfm : alGet field_mappings name = none)
    (hkey : find_schema_key_case_insensitive m name = some key)
    (hjv : alGet m key = some jv) :
    (∀ k, (k = "enum" ∨ k = "pattern" ∨ k = "minLength" ∨ k = "maxLength") →
        alGet (enhance_top_level_schema m name sd) k =
          (alGet jv k).or (alGet sd k)) ∧
      alGet (enhance_top_level_schema m name sd) "description" =
        (alGet sd "description").or (alGet jv "description") := by
  have hsd4 : ∀ k, (k = "enum" ∨ k = "pattern" ∨ k = "minLength" ∨ k = "maxLength") →
      alGet (copyIfPresent jv (copyIfPresent jv (copyIfPresent jv
          (copyIfPresent jv sd "enum") "pattern") "minLength") "maxLength") k =
        (alGet jv k).or (alGet sd k) := by
    rintro k (rfl | rfl | rfl | rfl)
    · rw [alGet_copyIfPresent_ne _ _ _ _ (by decide),
        alGet_copyIfPresent_ne _ _ _ _ (by decide),
        alGet_copyIfPresent_ne _ _ _ _ (by decide), alGet_copyIfPresent_self]
    · rw [alGet_copyIfPresent_ne _ _ _ _ (by decide),
        alGet_copyIfPresent_ne _ _ _ _ (by decide), alGet_copyIfPresent_self,
        alGet_copyIfPresent_ne _ _ _ _ (by decide)]
    · rw [alGet_copyIfPresent_ne _ _ _ _ (by decide), alGet_copyIfPresent_self,
        alGet_copyIfPresent_ne _ _ _ _ (by decide),
        alGet_copyIfPresent_ne _ _ _ _ (by decide)]
    · rw [alGet_copyIfPresent_self, alGet_copyIfPresent_ne _ _ _ _ (by decide),
        alGet_copyIfPresent_ne _ _ _ _ (by decide),
        alGet_copyIfPresent_ne _ _ _ _ (by decide)]
  have hdesc4 : alGet (copyIfPresent jv (copyIfPresent jv (copyIfPresent jv
      (copyIfPresent jv sd "enum") "pattern") "minLength") "maxLength")
      "description" = alGet sd "description" := by
    rw [alGet_copyIfPresent_ne _ _ _ _ (by decide),
      alGet_copyIfPresent_ne _ _ _ _ (by decide),
      alGet_copyIfPresent_ne _ _ _ _ (by decide),
      alGet_copyIfPresent_ne _ _ _ _ (by decide)]
  have hunfold : enhance_top_level_schema m name sd =
      enhance_top_level_fallback m name sd := by
    rw [enhance_top_level_schema, if_neg (by rw [hty]; intro hc; exact hc rfl), hfm]
  rw [hunfold, enhance_top_level_fallback, hkey]
  simp only [hjv, Option.getD]
  constructor
  · rintro k hk
    have hne : ¬("description" : String) = k := by
      rcases hk with rfl | rfl | rfl | rfl <;> decide
    cases hjd : alGet jv "description" with
    | none => exact hsd4 k hk
    | some dv =>
      dsimp only
      split
      · exact hsd4 k hk
      · rw [alGet_alSet_ne _ _ _ _ hne]
        exact hsd4 k hk
  · cases hjd : alGet jv "description" with
    | none =>
      show alGet (copyIfPresent jv (copyIfPresent jv (copyIfPresent jv
          (copyIfPresent jv sd "enum") "pattern") "minLength") "maxLength")
          "description" = _
      rw [hdesc4]
      cases alGet sd "description" <;> rfl
    | some dv =>
      dsimp only
      split
      · next hp =>
          rw [hdesc4]
          rw [hdesc4] at hp
          rcases Option.isSome_iff_exists.mp hp with ⟨w, hw⟩
          rw [hw]; rfl
      · next hp =>
          rw [alGet_alSet_self]
          rw [hdesc4] at hp
          have h0 : alGet sd "description" = none :=
            Option.not_isSome_iff_eq_none.mp hp
          rw [h0]
          rfl

/-- **C5 (amended, witness).** -/
theorem enhance_top_level_fallback_behavior_witness :
    (typeIs c5Schema "string" = true ∧
        alGet field_mappings "foo" = none ∧
        find_schema_key_case_insensitive c5Registry "foo" = some "Foo" ∧
        alGet c5Registry "Foo" = some [("enum", JValue.jarr [JValue.jstr "Y"])]) ∧
      alGet (enhance_top_level_schema c5Registry "foo" c5Schema) "enum" =
        (alGet [("enum", JValue.jarr [JValue.jstr "Y"])] "enum").or
          (alGet c5Schema "enum") :=
  ⟨⟨by decide, rfl, rfl, rfl⟩,
    (enhance_top_level_fallback_behavior c5Registry "foo" c5Schema "Foo"
        [("enum", JValue.jarr [JValue.jstr "Y"])] (by decide) rfl rfl rfl).1
      "enum" (Or.inl rfl)⟩

/-! ### C6: structurally invalid schema entries -/

/-- **C6 (counterexample).**  A non-object schema entry does *not* make the
enhancement run fail: `_enhance_existing_schemas` guards every entry with
`isinstance(schema, dict)` and simply leaves the entry untouched — the run
completes normally, returning the document with the invalid entry intact,
and no error naming the schema is raised anywhere. -/
theorem enhance_skips_non_dict_counterexample :
    enhance_existing_schemas [] true [("Bad", JValue.jnum 42)] =
      [("Bad", JValue.jnum 42)] := rfl

/-- **C6 (amended).**  When a schema entry holds a non-object value where an
object-kind schema node is expected, the enhancement pass silently skips
it: the run completes (the traversal is total, surfacing no error) and the
offending entry is returned unchanged. -/
theorem enhance_existing_schemas_skips_non_dict (m : Registry) (strict : Bool)
    (schemas : JDict) (n : String) (v : JValue)
    (hv : alGet schemas n = some v) (hnd : ∀ d, v ≠ JValue.jobj d) :
    alGet (enhance_existing_schemas m strict schemas) n = some v := by
  induction schemas with
  | nil => simp [alGet] at hv
  | cons e rest ih =>
    obtain ⟨k, w⟩ := e
    simp only [enhance_existing_schemas, List.map_cons] at ih ⊢
    by_cases hk : k = n
    · have hw : w = v := by
        simpa [alGet, hk] using hv
      subst hw
      cases w with
      | jobj d => exact absurd rfl (hnd d)
      | null => simp [alGet, hk]
      | jbool b => simp [alGet, hk]
      | jnum x => simp [alGet, hk]
      | jstr s => simp [alGet, hk]
      | jarr vs => simp [alGet, hk]
    · have hv' : alGet rest n = some v := by
        simpa [alGet, hk] using hv
      have := ih hv'
      cases w <;> simpa [alGet, hk] using this

/-- **C6 (amended, witness).** -/
theorem enhance_existing_schemas_skips_non_dict_witness :
    (alGet [("Bad", JValue.jnum 42)] "Bad" = some (JValue.jnum 42)) ∧
      alGet (enhance_existing_schemas [] true [("Bad", JValue.jnum 42)]) "Bad" =
        some (JValue.jnum 42) :=
  ⟨rfl, enhance_existing_schemas_skips_non_dict [] true [("Bad", JValue.jnum 42)]
    "Bad" (JValue.jnum 42) rfl (fun d h => by cases h)⟩

/-! ### C7: overlay semantics -/

theorem foldl_insertIfAbsent_preserves (entries : List (String × JValue))
    (s : JDict) (n : String) (v : JValue) (h : alGet s n = some v) :
    alGet (entries.foldl insertIfAbsent s) n = some v := by
  induction entries generalizing s with
  | nil => exact h
  | cons e rest ih =>
    rw [List.foldl_cons]
    apply ih
    unfold insertIfAbsent
    by_cases hc : (alGet s e.1).isSome
    · rw [if_pos hc]; exact h
    · rw [if_neg hc]
      by_cases hk : e.1 = n
      · subst hk; rw [h] at hc; simp at hc
      · rw [alGet_alSet_ne _ _ _ _ hk]; exact h

theorem foldl_insertIfAbsent_isSome (entries : List (String × JValue))
    (s : JDict) (n : String) (h : (alGet s n).isSome) :
    (alGet (entries.foldl insertIfAbsent s) n).isSome := by
  rcases Option.isSome_iff_exists.mp h with ⟨v, hv⟩
  rw [foldl_insertIfAbsent_preserves entries s n v hv]
  rfl

theorem mem_foldl_insertIfAbsent_isSome (entries : List (String × JValue))
    (s : JDict) (e : String × JValue) (he : e ∈ entries) :
    (alGet (entries.foldl insertIfAbsent s) e.1).isSome := by
  induction entries generalizing s with
  | nil => cases he
  | cons f rest ih =>
    rw [List.foldl_cons]
    rcases List.mem_cons.mp he with rfl | he'
    · apply foldl_insertIfAbsent_isSome
      unfold insertIfAbsent
      by_cases hc : (alGet s e.1).isSome
      · rw [if_pos hc]; exact hc
      · rw [if_neg hc, alGet_alSet_self]; rfl
    · exact ih _ he'

theorem foldl_insertIfAbsent_id (entries : List (String × JValue)) (s : JDict)
    (h : ∀ e ∈ entries, (alGet s e.1).isSome) :
    entries.foldl insertIfAbsent s = s := by
  induction entries with
  | nil => rfl
  | cons e rest ih =>
    rw [List.foldl_cons]
    have hs : insertIfAbsent s e = s := by
      unfold insertIfAbsent
      rw [if_pos (h e (List.mem_cons_self e rest))]
    rw [hs]
    exact ih fun f hf => h f (List.mem_cons_of_mem e hf)

theorem alGet_foldl_alSet_not_mem (entries : List (String × JValue)) (s : JDict)
    (n : String) (hn : n ∉ entries.map Prod.fst) :
    alGet (entries.foldl (fun acc nv => alSet acc nv.1 nv.2) s) n = alGet s n := by
  induction entries generalizing s with
  | nil => rfl
  | cons e rest ih =>
    rw [List.foldl_cons]
    have h1 : n ∉ rest.map Prod.fst := fun hc => hn (List.mem_cons_of_mem _ hc)
    have h2 : ¬e.1 = n := fun hc => hn (by rw [← hc]; exact List.mem_cons_self _ _)
    rw [ih _ h1, alGet_alSet_ne _ _ _ _ h2]

theorem alGet_foldl_alSet_mem (entries : List (String × JValue)) (s : JDict)
    (n : String) (v : JValue) (hmem : (n, v) ∈ entries)
    (hnd : (entries.map Prod.fst).Nodup) :
    alGet (entries.foldl (fun acc nv => alSet acc nv.1 nv.2) s) n = some v := by
  induction entries generalizing s with
  | nil => cases hmem
  | cons e rest ih =>
    rw [List.foldl_cons]
    have hnd' := hnd
    rw [List.map_cons] at hnd'
    have hparts := List.nodup_cons.mp hnd'
    rcases List.mem_cons.mp hmem with rfl | hmem'
    · rw [alGet_foldl_alSet_not_mem _ _ _ hparts.1, alGet_alSet_self]
    · exact ih _ hmem' hparts.2

/-- **C7.**  Overlay semantics: (a) `_enhance_error_schemas` is
insert-if-absent — any schema already present under any name (so in
particular a pre-existing `ErrorCode`/`CorrlatnID`) is left unchanged, and
applying the overlay twice equals applying it once; (b) `_add_enum_types`
overwrites — after it runs, each overlay name maps to the overlay's literal
enum record regardless of any prior definition. -/
theorem overlay_insert_vs_overwrite :
    (∀ (doc : SwaggerDoc) (s : JDict) (n : String) (v : JValue),
        doc.schemas = some s → alGet s n = some v →
        alGet ((enhance_error_schemas doc).schemas.getD []) n = some v) ∧
      (∀ doc : SwaggerDoc,
        enhance_error_schemas (enhance_error_schemas doc) =
          enhance_error_schemas doc) ∧
      (∀ (s : JDict) (n : String) (v : JValue), (n, v) ∈ enums_table →
        alGet (add_enum_types s) n = some v) := by
  refine ⟨?_, ?_, ?_⟩
  · intro doc s n v hs hv
    rw [enhance_error_schemas, hs]
    exact foldl_insertIfAbsent_preserves error_schemas s n v hv
  · intro doc
    obtain ⟨ti, sc⟩ := doc
    cases sc with
    | none => rfl
    | some s =>
      show SwaggerDoc.mk ti
          (some (error_schemas.foldl insertIfAbsent
            (error_schemas.foldl insertIfAbsent s))) =
        SwaggerDoc.mk ti (some (error_schemas.foldl insertIfAbsent s))
      rw [foldl_insertIfAbsent_id _ _
        (fun e he => mem_foldl_insertIfAbsent_isSome error_schemas s e he)]
  · intro s n v hmem
    exact alGet_foldl_alSet_mem enums_table s n v hmem (by decide)

/-- **C7 (witness).** -/
theorem overlay_insert_vs_overwrite_witness :
    ((⟨none, some [("ErrorCode", JValue.jnum 1)]⟩ : SwaggerDoc).schemas =
        some [("ErrorCode", JValue.jnum 1)] ∧
      alGet [("ErrorCode", JValue.jnum 1)] "ErrorCode" = some (JValue.jnum 1)) ∧
      alGet ((enhance_error_schemas
          ⟨none, some [("ErrorCode", JValue.jnum 1)]⟩).schemas.getD [])
        "ErrorCode" = some (JValue.jnum 1) :=
  ⟨⟨rfl, rfl⟩,
    overlay_insert_vs_overwrite.1 ⟨none, some [("ErrorCode", JValue.jnum 1)]⟩
      [("ErrorCode", JValue.jnum 1)] "ErrorCode" (JValue.jnum 1) rfl rfl⟩

/-! ### C8: the transaction-type overlay -/

/-- The record `_add_transaction_type_validations` injects for a `Buy`
title: `{'type': 'string', **trxn_def}` keeps the keyword's `enum` *and*
`description`. -/
def trxnTypBuyRecord : JValue :=
  .jobj [("type", .jstr "string"), ("enum", .jarr [.jstr "1"]),
    ("description", .jstr "Transaction type for Buy orders")]

/-- **C8 (counterexample).**  For a document titled `Buy Order API` the
injected `TrxnTypBuy` schema is not `{type: string, enum: ["1"]}`: it also
carries the overlay's `description`, so the claimed equality fails. -/
theorem trxn_buy_record_counterexample :
    alGet ((add_transaction_type_validations
        ⟨some "Buy Order API", some []⟩).schemas.getD []) "TrxnTypBuy" =
      some trxnTypBuyRecord ∧
      trxnTypBuyRecord ≠
        JValue.jobj [("type", JValue.jstr "string"),
          ("enum", JValue.jarr [JValue.jstr "1"])] := by
  constructor
  · rfl
  · intro h
    simp [trxnTypBuyRecord] at h

/-- **C8 (amended).**  For every document whose declared title is
`Buy Order API`, `_add_transaction_type_validations` performs exactly one
schema assignment: it stores under `TrxnTypBuy` the record
`{type: string, enum: ["1"], description: "Transaction type for Buy
orders"}` and leaves every other schema entry unchanged — no other
transaction-type schema is added even though later keywords of the fixed
table are never consulted after the first match. -/
theorem add_transaction_type_buy (s : JDict) :
    (add_transaction_type_validations ⟨some "Buy Order API", some s⟩).schemas =
      some (alSet s "TrxnTypBuy" trxnTypBuyRecord) ∧
      (add_transaction_type_validations ⟨some "Buy Order API", some s⟩).title =
        some "Buy Order API" := by
  constructor
  · show some (txn_loop "Buy Order API" transaction_types s) = _
    rfl
  · rfl

end FservPoc
